/-
Verification of the MoSPI scraper / RAG pipeline.

Shallow embedding of the repository code:
  * `Pipeline` — pipeline/run.py (text chunking)
  * `Rag`      — rag/index.py (FAISS index building) and rag/retriever.py
  * `Scraper`  — scraper/crawl.py and scraper/models.py

Texts are modelled as their character sequences (`List Char`), machine
integers as `Nat`/`Int`, and every effectful boundary (HTTP fetch,
embedding model, filesystem) as an explicit oracle argument, so that all
definitions are executable.
-/
import Mathlib

set_option maxHeartbeats 1000000

namespace Pipeline

/-- Embedding of the loop body of `chunk_text` (pipeline/run.py, lines 22-33),
with an explicit fuel argument: `none` means the loop did not finish within
`fuel` iterations.  The Python body is

    while start < len(text):
        end = start + chunk_size
        chunks.append(text[start:end])
        start += (chunk_size - overlap)
        if start + chunk_size > len(text) and start < len(text):
            chunks.append(text[start:])
            break
    return chunks

`text[start:end]` for `0 ≤ start ≤ end` is `(text.drop start).take (end - start)`
and `text[start:]` is `text.drop start`. -/
def chunkLoop (text : List Char) (chunk_size overlap : Nat) :
    Nat → Nat → List (List Char) → Option (List (List Char))
  | 0, _, _ => none
  | fuel + 1, start, chunks =>
    if start < text.length then
      let chunks' := chunks ++ [(text.drop start).take chunk_size]
      let start' := start + (chunk_size - overlap)
      if start' + chunk_size > text.length ∧ start' < text.length then
        some (chunks' ++ [text.drop start'])
      else
        chunkLoop text chunk_size overlap fuel start' chunks'
    else
      some chunks

/-- Embedding of `chunk_text` (pipeline/run.py, lines 22-33; Python defaults are
`chunk_size = 500`, `overlap = 50`).  The fuel `text.length + 2` is enough for
every terminating run of the Python loop (the start index advances by at least
one per iteration whenever `overlap < chunk_size`); a `none` result means the
Python loop does not terminate. -/
def chunk_text (text : List Char) (chunk_size : Nat := 500) (overlap : Nat := 50) :
    Option (List (List Char)) :=
  chunkLoop text chunk_size overlap (text.length + 2) 0 []

/-- Closed-form number of chunks `chunk_text` produces on a text of length `L`
(for `overlap < chunk_size`). -/
def chunkCount (L chunk_size overlap : Nat) : Nat :=
  if L = 0 then 0
  else if L ≤ chunk_size - overlap then 1
  else if overlap = 0 ∧ L % chunk_size = 0 then L / chunk_size
  else (L - chunk_size) / (chunk_size - overlap) + 2

end Pipeline

namespace Rag

/-- Metadata record appended for each successfully embedded chunk
(rag/index.py, lines 46-51). -/
structure ChunkMeta where
  document_id : String
  document_title : String
  chunk_text : String
  chunk_index : Nat
deriving DecidableEq

/-- One entry of a processed document record (rag/index.py reads
`doc["processed_files"][j]["text_chunks"]`). -/
structure ProcessedFile where
  text_chunks : List String
deriving DecidableEq

/-- One processed document record as read from processed_documents.json
(the fields rag/index.py accesses). -/
structure ProcessedDoc where
  id : String
  title : String
  processed_files : List ProcessedFile
deriving DecidableEq

/-- Embedding of the accumulation loop of `build_faiss_index`
(rag/index.py, lines 33-54).  The embedding model is the oracle
`encode : String → Option α`; `none` models `model.encode` raising, in which
case the `except` branch appends neither the vector nor the metadata record.
The result is the pair (vectors added to the FAISS index in order,
`chunk_metadata`); `index.ntotal` is the length of the first component. -/
def build_faiss_index {α : Type} (encode : String → Option α)
    (documents : List ProcessedDoc) : List α × List ChunkMeta :=
  documents.foldl (fun acc doc =>
    doc.processed_files.foldl (fun acc file =>
      file.text_chunks.enum.foldl (fun acc ic =>
        match encode ic.2 with
        | some embedding =>
          (acc.1 ++ [embedding], acc.2 ++ [⟨doc.id, doc.title, ic.2, ic.1⟩])
        | none => acc) acc) acc) ([], [])

/-- The full ordered traversal of chunks of a corpus, each already annotated
with the metadata record `build_faiss_index` would store for it. -/
def chunkMetas (documents : List ProcessedDoc) : List ChunkMeta :=
  documents.flatMap (fun doc =>
    doc.processed_files.flatMap (fun file =>
      file.text_chunks.enum.map (fun ic => ⟨doc.id, doc.title, ic.2, ic.1⟩)))

/-- The successful (vector, metadata) pairs of a build, in traversal order. -/
def indexedPairs {α : Type} (encode : String → Option α)
    (documents : List ProcessedDoc) : List (α × ChunkMeta) :=
  (chunkMetas documents).filterMap (fun m =>
    (encode m.chunk_text).map (fun e => (e, m)))

/-- Embedding of `DocumentRetriever.retrieve` (rag/retriever.py, lines 62-71)
from the point where the vector index has returned its raw positions
(`indices[0]`, modelled as the oracle output `positions`, FAISS uses -1 for
missing neighbours).  The loop keeps `metadata[i]` exactly when
`i >= 0 and i < len(self.metadata)`; inside the guard `metadata.get?` is
always `some`, so the `toList` append adds exactly that record. -/
def retrieve (metadata : List ChunkMeta) (positions : List Int) : List ChunkMeta :=
  positions.foldl (fun retrieved_chunks i =>
    if 0 ≤ i ∧ i < (metadata.length : Int) then
      retrieved_chunks ++ (metadata.get? i.toNat).toList
    else retrieved_chunks) []

/-- The in-range test of the retrieve loop, as a Boolean. -/
def inRange (len : Nat) (i : Int) : Bool :=
  decide (0 ≤ i ∧ i < (len : Int))

/-- The per-chunk step of the index build, shared by all three fold levels of
`build_faiss_index` once each chunk is annotated with its metadata record. -/
def pairStep {α : Type} (encode : String → Option α)
    (acc : List α × List ChunkMeta) (m : ChunkMeta) : List α × List ChunkMeta :=
  match encode m.chunk_text with
  | some embedding => (acc.1 ++ [embedding], acc.2 ++ [m])
  | none => acc

/-- The body of one iteration of the retrieve loop, as an Option. -/
def lookup1 (metadata : List ChunkMeta) (i : Int) : Option ChunkMeta :=
  if 0 ≤ i ∧ i < (metadata.length : Int) then metadata.get? i.toNat else none

/-- Concrete embedding oracle used to witness the alignment theorem: it fails
on the chunk "bad" and embeds every other chunk as its length. -/
def encodeW : String → Option Nat :=
  fun s => if s = "bad" then none else some s.length

/-- Concrete corpus used to witness the alignment theorem: three chunks, the
second of which fails to embed. -/
def docsW : List ProcessedDoc :=
  [⟨"d1", "Doc one", [⟨["alpha", "bad", "gamma"]⟩]⟩]

/-- Concrete metadata records used to witness the retriever theorem. -/
def metaW0 : ChunkMeta := ⟨"d1", "Doc one", "alpha", 0⟩

/-- Second concrete metadata record for the retriever witness. -/
def metaW1 : ChunkMeta := ⟨"d1", "Doc one", "gamma", 2⟩

end Rag

namespace Scraper

/-- Model of CPython randomized string hashing: since Python 3.3 the value of
`hash(some_string)` depends on a per-process random salt (PYTHONHASHSEED) in
addition to the string itself.  We model the salted 64-bit hash as a salted
polynomial hash truncated to 64 bits; the property the claims depend on is
exactly that the result is a function of both the salt and the string. -/
def pyHash (salt : Nat) (s : String) : Nat :=
  s.data.foldl (fun h c => (h * 1000003 + c.toNat) % (2 ^ 64)) (salt % (2 ^ 64))

/-- Embedding of `document_id = str(hash(document_url))`
(scraper/crawl.py, line 146), with the process hash salt explicit. -/
def documentId (salt : Nat) (url : String) : String :=
  toString (pyHash salt url)

/-- Python `s.lower()` (ASCII case folding, which covers the URL characters
this scraper manipulates). -/
def pyLower (s : String) : String :=
  String.mk (s.data.map Char.toLower)

/-- Python `s.endswith(suffix)`: the last `len(suffix)` characters of `s`
equal `suffix` (false when `s` is shorter than `suffix`). -/
def pyEndsWith (s suffix : String) : Bool :=
  decide (s.data.drop (s.data.length - suffix.data.length) = suffix.data)

/-- Helper for the Python `in` test on strings: does `needle` occur as a
contiguous subsequence of the second argument? -/
def inStrAux (needle : List Char) : List Char → Bool
  | [] => needle.isEmpty
  | c :: rest => needle.isPrefixOf (c :: rest) || inStrAux needle rest

/-- Python `needle in hay` on strings. -/
def pyContains (hay needle : String) : Bool :=
  inStrAux needle.data hay.data

/-- The characters of `s` up to and including its last slash (empty if `s`
has no slash). -/
def upToLastSlash (s : List Char) : List Char :=
  (s.reverse.dropWhile (fun c => c != '/')).reverse

/-- The scheme and host part of an absolute http(s) URL. -/
def schemeHostChars (s : List Char) : List Char :=
  if ("http://".data).isPrefixOf s then
    "http://".data ++ ((s.drop 7).takeWhile (fun c => c != '/'))
  else if ("https://".data).isPrefixOf s then
    "https://".data ++ ((s.drop 8).takeWhile (fun c => c != '/'))
  else upToLastSlash s

/-- Model of `urllib.parse.urljoin` restricted to the URL shapes this scraper
joins: an empty link keeps the base, an absolute http(s) link replaces the
base, a query-only link (`?page=n`) replaces the query of the base, a
root-relative link (`/path`) is resolved against the scheme and host of the
base, and any other relative link replaces the final path segment of the
base. -/
def pyUrljoin (base url : String) : String :=
  if url.data = [] then base
  else if ("http://".data).isPrefixOf url.data ∨ ("https://".data).isPrefixOf url.data then url
  else if url.data.head? = some '?' then
    String.mk (base.data.takeWhile (fun c => c != '?') ++ url.data)
  else if url.data.head? = some '/' then
    String.mk (schemeHostChars base.data ++ url.data)
  else
    String.mk (upToLastSlash base.data ++ url.data)

/-- An `<a>` tag as the scraper reads it: `get("href")` (absent attribute
modelled as `none`) and `get_text(strip=True)`. -/
structure Anchor where
  href : Option String
  text : String
deriving DecidableEq

/-- A `<td>` cell: its stripped text and its anchors in document order. -/
structure Cell where
  text : String
  anchors : List Anchor
deriving DecidableEq

/-- A `<tr>` row of the listing table. -/
structure Row where
  cells : List Cell
deriving DecidableEq

/-- All anchors of a row in document order
(`row.find_all("a", ...)` searches every cell). -/
def Row.allAnchors (r : Row) : List Anchor :=
  r.cells.flatMap Cell.anchors

/-- The `div.view-content` container: its table when present, as the rows of
the table body. -/
structure ViewContent where
  table : Option (List Row)
deriving DecidableEq

/-- A fetched page, reduced to the parts `crawl_website` inspects: the
`div.view-content` listing table and the `ul.pager` pagination list (each
`li` contributing its first anchor, or `none` when it has no anchor). -/
structure Html where
  viewContent : Option ViewContent
  pager : Option (List (Option Anchor))
deriving DecidableEq

/-- FileLink from scraper/models.py (the fields the crawl populates;
`file_path` keeps its default `None`). -/
structure FileLink where
  url : String
  file_type : Option String := none
  file_path : Option String := none
deriving DecidableEq

/-- Document from scraper/models.py, restricted to the fields the crawl
populates and later stages read (`category`, `summary` and `content_hash`
always keep their default `None`, and the wall-clock `created_at` is outside
the model; no claim mentions them). -/
structure Document where
  id : String
  title : String
  url : String
  date_published : Option (Nat × Nat × Nat)
  file_links : List FileLink
deriving DecidableEq

/-- Python `s.split(sep)` for a one-character separator. -/
def splitOnChar (sep : Char) : List Char → List (List Char)
  | [] => [[]]
  | c :: rest =>
    match splitOnChar sep rest with
    | [] => [[]]
    | g :: gs => if c = sep then [] :: g :: gs else (c :: g) :: gs

/-- A nonempty all-digit character sequence read as a decimal number. -/
def digitsToNat (cs : List Char) : Option Nat :=
  if cs ≠ [] ∧ cs.all Char.isDigit then
    some (cs.foldl (fun n c => n * 10 + (c.toNat - 48)) 0)
  else none

/-- Modelled approximation of `datetime.strptime(date_str, "%d-%m-%Y")`
returning (day, month, year): three dash-separated decimal fields with the
day and month in calendar range.  No claim depends on its exact domain; the
crawl only stores the result (or `None` on failure). -/
def strptimeDMY (s : String) : Option (Nat × Nat × Nat) :=
  match splitOnChar (Char.ofNat 45) s.data with
  | [d, m, y] =>
    match digitsToNat d, digitsToNat m, digitsToNat y with
    | some dv, some mv, some yv =>
      if 1 ≤ dv ∧ dv ≤ 31 ∧ 1 ≤ mv ∧ mv ≤ 12 then some (dv, mv, yv) else none
    | _, _, _ => none
  | _ => none

/-- Embedding of one iteration of the row loop of `parse_listing_page`
(scraper/crawl.py, lines 118-154): rows with fewer than 3 cells are skipped,
the subject cell is `cols[1]` and the date cell `cols[2]`, a missing title
anchor skips the row, and every anchor of the row whose href ends
case-insensitively in ".pdf" becomes a `FileLink` with `file_type = "pdf"`.
A `none` href on the title anchor is joined as the empty link (Python would
raise there; no claim reaches that case), and the Python truthiness test
`href and ...` in the pdf filter is subsumed by the suffix test since ".pdf"
is nonempty. -/
def rowToDocument (salt : Nat) (base_url : String) (row : Row) : Option Document :=
  if row.cells.length < 3 then none
  else
    match row.cells.get? 1, row.cells.get? 2 with
    | some subject_cell, some date_cell =>
      match subject_cell.anchors.head? with
      | none => none
      | some title_tag =>
        let document_url := pyUrljoin base_url (title_tag.href.getD "")
        let pdf_tags := row.allAnchors.filter (fun a =>
          match a.href with
          | some h => pyEndsWith (pyLower h) ".pdf"
          | none => false)
        let file_links := pdf_tags.map (fun a =>
          FileLink.mk (pyUrljoin base_url (a.href.getD "")) (some "pdf") none)
        some ⟨documentId salt document_url, title_tag.text, document_url,
          strptimeDMY date_cell.text, file_links⟩
    | _, _ => none

/-- Embedding of `parse_listing_page` (scraper/crawl.py, lines 101-157): an
absent `div.view-content` or absent table yields the empty list, otherwise
the rows are processed in order with malformed rows skipped. -/
def parse_listing_page (salt : Nat) (html : Html) (base_url : String) : List Document :=
  match html.viewContent with
  | none => []
  | some vc =>
    match vc.table with
    | none => []
    | some rows => rows.filterMap (rowToDocument salt base_url)

/-- Helper for Python `url.split("/")[-1]`: the characters after the last
slash (the whole string when there is no slash). -/
def pyLastSegAux : List Char → List Char → List Char
  | [], acc => acc
  | c :: rest, acc => if c = '/' then pyLastSegAux rest [] else pyLastSegAux rest (acc ++ [c])

/-- Python `url.split("/")[-1]`. -/
def pyLastSeg (url : String) : String :=
  String.mk (pyLastSegAux url.data [])

/-- `os.path.join(output_dir, file_name)` for a directory without a trailing
slash, as used with the constant data directories of scraper/crawl.py. -/
def osPathJoin (output_dir file_name : String) : String :=
  output_dir ++ "/" ++ file_name

/-- Result of one `download_file` call: the returned local path (or `None` on
failure), the set of files existing afterwards, and how many network requests
were made. -/
structure DownloadResult where
  result : Option String
  fs : List String
  requests : Nat
deriving DecidableEq

/-- Embedding of `download_file` (scraper/crawl.py, lines 71-99) over an
explicit filesystem `fs` (the list of existing file paths; directory creation
is not modelled) and a network oracle `net` (`none` models a transport or
status error, which the function catches, returning `None`).  If the computed
destination path already exists, the function returns it without any network
request. -/
def download_file (net : String → Option Unit) (fs : List String)
    (url output_dir : String) : DownloadResult :=
  let file_name := pyLastSeg url
  let file_path := osPathJoin output_dir file_name
  if file_path ∈ fs then ⟨some file_path, fs, 0⟩
  else
    match net url with
    | some _ => ⟨some file_path, fs ++ [file_path], 1⟩
    | none => ⟨none, fs, 1⟩

/-- The crawl state of `crawl_website` (scraper/crawl.py): the FIFO `queue`,
the module-level `visited_urls` and `found_documents`, the loop counter
`pages_crawled`, and a ghost counter `fetches` of successful HTTP page
fetches (each `visited_urls.add` in `get_page_content` is one successful
fetch). -/
structure CrawlState where
  queue : List String
  visited : List String
  pagesCrawled : Nat
  foundDocuments : List Document
  fetches : Nat
deriving DecidableEq

/-- Embedding of `get_page_content` (scraper/crawl.py, lines 47-69): an
already visited URL is skipped without a request; otherwise the oracle
`fetch` either returns the page (the URL is then marked visited — one
successful fetch) or fails (`none`, the caught error path, which does not
mark the URL visited). -/
def get_page_content (fetch : String → Option Html) (st : CrawlState)
    (url : String) : Option Html × CrawlState :=
  if url ∈ st.visited then (none, st)
  else
    match fetch url with
    | some page =>
      (some page, { st with visited := st.visited ++ [url], fetches := st.fetches + 1 })
    | none => (none, st)

/-- Embedding of the guarded enqueue of scraper/crawl.py, lines 189-191: a
pagination URL is appended to the queue iff it is not visited, not already
queued, and the fetch budget is not exhausted. -/
def enqueueUrl (max_pages : Nat) (st : CrawlState) (u : String) : CrawlState :=
  if u ∉ st.visited ∧ u ∉ st.queue ∧ st.pagesCrawled < max_pages then
    { st with queue := st.queue ++ [u] }
  else st

/-- One `li` of the pagination container (scraper/crawl.py, lines 183-191):
its first anchor must exist and carry a truthy (nonempty) href, which is then
joined against the current URL and enqueued under the dedup/budget guard. -/
def enqueuePagination (max_pages : Nat) (current_url : String) (st : CrawlState)
    (li : Option Anchor) : CrawlState :=
  match li with
  | some a =>
    match a.href with
    | some h => if h ≠ "" then enqueueUrl max_pages st (pyUrljoin current_url h) else st
    | none => st
  | none => st

/-- One iteration of the while loop of `crawl_website` (scraper/crawl.py,
lines 167-197): pop the queue head, try to fetch it; on success count the
page and, only when the URL contains "press-release", parse the listing into
`found_documents` and enqueue the pagination links. -/
def crawlStep (fetch : String → Option Html) (salt max_pages : Nat)
    (st : CrawlState) : CrawlState :=
  match st.queue with
  | [] => st
  | current_url :: rest =>
    let st1 := { st with queue := rest }
    match get_page_content fetch st1 current_url with
    | (some page, st2) =>
      let st3 := { st2 with pagesCrawled := st2.pagesCrawled + 1 }
      if pyContains current_url "press-release" then
        let st4 := { st3 with
          foundDocuments := st3.foundDocuments ++ parse_listing_page salt page current_url }
        match page.pager with
        | some lis => lis.foldl (enqueuePagination max_pages current_url) st4
        | none => st4
      else st3
    | (none, st2) => st2

/-- The while loop of `crawl_website` (scraper/crawl.py, line 167): the budget
test `pages_crawled < max_pages` is part of the loop condition, checked
before a URL is popped.  Fuel bounds the number of iterations. -/
def crawlLoop (fetch : String → Option Html) (salt max_pages : Nat) :
    Nat → CrawlState → CrawlState
  | 0, st => st
  | fuel + 1, st =>
    if st.queue ≠ [] ∧ st.pagesCrawled < max_pages then
      crawlLoop fetch salt max_pages fuel (crawlStep fetch salt max_pages st)
    else st

/-- The crawl phase of `crawl_website` (scraper/crawl.py, lines 159-199),
started from fresh module-level state. -/
def crawl_website (fetch : String → Option Html) (salt : Nat) (seed_url : String)
    (max_pages fuel : Nat) : CrawlState :=
  crawlLoop fetch salt max_pages fuel ⟨[seed_url], [], 0, [], 0⟩

/-- `files_to_download` of the download phase (scraper/crawl.py, lines
203-206): every file link URL of every found document. -/
def filesToDownload (docs : List Document) : List String :=
  docs.flatMap (fun d => d.file_links.map FileLink.url)

/-- `unique_files = list(set(files_to_download))` (scraper/crawl.py, line
208); the set iteration order is unspecified, membership is what the claims
use. -/
def uniqueFiles (docs : List Document) : List String :=
  (filesToDownload docs).dedup

/-- The URLs the download loop actually downloads (scraper/crawl.py, lines
211-213): only those passing the case-sensitive test
`file_url.endswith(".pdf")`. -/
def downloadedUrls (docs : List Document) : List String :=
  (uniqueFiles docs).filter (fun u => pyEndsWith u ".pdf")

/-- Seed URL of the concrete crawl scenario used by witnesses. -/
def seedW : String := "https://www.mospi.gov.in/press-release"

/-- Concrete title anchor of the witness listing row. -/
def titleAnchorW : Anchor := ⟨some "https://www.mospi.gov.in/press-release/doc1", "Report one"⟩

/-- Concrete PDF anchor of the witness listing row, with an uppercase
suffix. -/
def pdfAnchorW : Anchor := ⟨some "https://www.mospi.gov.in/files/REPORT.PDF", "Download"⟩

/-- Concrete listing row used by witnesses. -/
def rowW : Row :=
  ⟨[⟨"1", []⟩, ⟨"Report one", [titleAnchorW]⟩, ⟨"01-02-2024", []⟩, ⟨"", [pdfAnchorW]⟩]⟩

/-- Concrete listing page with three pagination links, used by witnesses. -/
def htmlW : Html :=
  ⟨some ⟨some [rowW]⟩,
   some [some ⟨some "?page=1", "2"⟩, some ⟨some "?page=2", "3"⟩, some ⟨some "?page=3", "4"⟩]⟩

/-- Concrete fetch oracle: only the seed URL resolves, to the witness listing
page. -/
def fetchW : String → Option Html :=
  fun u => if u = seedW then some htmlW else none

/-- The document the witness row parses to. -/
def docW : Document :=
  (rowToDocument 0 seedW rowW).getD ⟨"", "", "", none, []⟩

/-- A non-listing URL (no "press-release" substring) used by the C10
witness. -/
def aboutW : String := "https://www.mospi.gov.in/about-us"

/-- Fetch oracle for the C10 witness: only the non-listing URL resolves. -/
def fetchAboutW : String → Option Html :=
  fun u => if u = aboutW then some htmlW else none

/-- Fresh crawl state whose queue holds the non-listing URL. -/
def stAboutW : CrawlState := ⟨[aboutW], [], 0, [], 0⟩

/-- Crawl state used by the dedup witness: the URL to enqueue is already
queued. -/
def stDupW : CrawlState := ⟨["https://a.gov/p?page=1"], [], 0, [], 0⟩

end Scraper

namespace Pipeline

theorem nat_div_sub (a b : Nat) (hb : 0 < b) (h : b ≤ a) : a / b = (a - b) / b + 1 := by
  conv_lhs => rw [← Nat.sub_add_cancel h]
  rw [Nat.add_div_right _ hb]

theorem nat_mod_sub (a b : Nat) (h : b ≤ a) : (a - b) % b = a % b := by
  conv_rhs => rw [← Nat.sub_add_cancel h, Nat.add_mod_right]

theorem chunkCount_rec (s o R : Nat) (h : o < s) (hR : (s - o) + s ≤ R) :
    chunkCount R s o = 1 + chunkCount (R - (s - o)) s o := by
  have hstep : 0 < s - o := Nat.sub_pos_of_lt h
  have hs : 0 < s := Nat.lt_of_le_of_lt (Nat.zero_le o) h
  rcases Nat.eq_zero_or_pos o with ho | ho
  · -- overlap zero: the stride is the full window size s
    subst ho
    simp only [Nat.sub_zero] at hR ⊢
    by_cases hmod : R % s = 0
    · have e1 : chunkCount R s 0 = R / s := by
        unfold chunkCount
        rw [if_neg (show ¬ R = 0 by omega), if_neg (show ¬ R ≤ s - 0 by omega),
          if_pos ⟨rfl, hmod⟩]
      by_cases h2 : R = s + s
      · have e2 : chunkCount (R - s) s 0 = 1 := by
          unfold chunkCount
          rw [if_neg (show ¬ R - s = 0 by omega), if_pos (show R - s ≤ s - 0 by omega)]
        rw [e1, e2, h2]
        rw [show s + s = 2 * s by ring, Nat.mul_div_cancel _ hs]
      · have hmod2 : (R - s) % s = 0 := by rw [nat_mod_sub R s (by omega)]; exact hmod
        have h2s : s + s < R := by omega
        have e2 : chunkCount (R - s) s 0 = (R - s) / s := by
          unfold chunkCount
          rw [if_neg (show ¬ R - s = 0 by omega), if_neg (show ¬ R - s ≤ s - 0 by omega),
            if_pos ⟨rfl, hmod2⟩]
        rw [e1, e2, nat_div_sub R s hs (by omega)]
        ring
    · -- not a multiple of s: both sides take the tail branch
      have h2s : s + s < R := by
        rcases Nat.lt_or_ge (s + s) R with h' | h'
        · exact h'
        · exfalso
          have hEq : R = s + s := by omega
          rw [hEq, Nat.add_mod_right, Nat.mod_self] at hmod
          exact hmod rfl
      have hmod2 : (R - s) % s ≠ 0 := by rw [nat_mod_sub R s (by omega)]; exact hmod
      have e1 : chunkCount R s 0 = (R - s) / s + 2 := by
        unfold chunkCount
        rw [if_neg (show ¬ R = 0 by omega), if_neg (show ¬ R ≤ s - 0 by omega),
          if_neg (show ¬ (0 = 0 ∧ R % s = 0) by simp [hmod])]
        simp
      have e2 : chunkCount (R - s) s 0 = (R - s - s) / s + 2 := by
        unfold chunkCount
        rw [if_neg (show ¬ R - s = 0 by omega), if_neg (show ¬ R - s ≤ s - 0 by omega),
          if_neg (show ¬ (0 = 0 ∧ (R - s) % s = 0) by simp [hmod2])]
        simp
      rw [e1, e2, nat_div_sub (R - s) s hs (by omega)]
      ring
  · -- positive overlap: the multiple branch is impossible on both sides
    have honz : o ≠ 0 := by omega
    have e1 : chunkCount R s o = (R - s) / (s - o) + 2 := by
      unfold chunkCount
      rw [if_neg (show ¬ R = 0 by omega), if_neg (show ¬ R ≤ s - o by omega),
        if_neg (show ¬ (o = 0 ∧ R % s = 0) by simp [honz])]
    have e2 : chunkCount (R - (s - o)) s o = (R - (s - o) - s) / (s - o) + 2 := by
      unfold chunkCount
      rw [if_neg (show ¬ R - (s - o) = 0 by omega),
        if_neg (show ¬ R - (s - o) ≤ s - o by omega),
        if_neg (show ¬ (o = 0 ∧ (R - (s - o)) % s = 0) by simp [honz])]
    rw [e1, e2, nat_div_sub (R - s) (s - o) hstep (by omega)]
    have harg : R - s - (s - o) = R - (s - o) - s := by omega
    rw [harg]
    ring

theorem chunkLoop_len (text : List Char) (s o : Nat) (h : o < s) :
    ∀ fuel start acc, text.length - start < fuel →
      (chunkLoop text s o fuel start acc).map List.length
        = some (acc.length + chunkCount (text.length - start) s o) := by
  have hstep : 0 < s - o := Nat.sub_pos_of_lt h
  have hs : 0 < s := Nat.lt_of_le_of_lt (Nat.zero_le o) h
  intro fuel
  induction fuel with
  | zero => intro start acc hfuel; omega
  | succ fuel ih =>
    intro start acc hfuel
    by_cases hlt : start < text.length
    · rw [chunkLoop]
      rw [if_pos hlt]
      simp only []
      by_cases htc : start + (s - o) + s > text.length ∧ start + (s - o) < text.length
      · rw [if_pos htc]
        have hcount : chunkCount (text.length - start) s o = 2 := by
          have h1 : s - o < text.length - start := by omega
          have h2 : text.length - start < (s - o) + s := by omega
          unfold chunkCount
          rw [if_neg (show ¬ text.length - start = 0 by omega),
            if_neg (show ¬ text.length - start ≤ s - o by omega)]
          by_cases hz : o = 0 ∧ (text.length - start) % s = 0
          · exfalso
            obtain ⟨hz0, hzm⟩ := hz
            subst hz0
            simp only [Nat.sub_zero] at h1 h2
            -- the remaining length R satisfies s < R < 2s yet s divides R
            set R := text.length - start with hRdef
            have := Nat.div_add_mod R s
            have hq1 : R / s ≥ 1 := Nat.le_div_iff_mul_le hs |>.mpr (by omega)
            have hq2 : R / s < 2 := by
              rcases Nat.lt_or_ge (R / s) 2 with h' | h'
              · exact h'
              · exfalso
                have : 2 * s ≤ (R / s) * s := Nat.mul_le_mul_right s h'
                have : (R / s) * s ≤ R := Nat.div_mul_le_self R s
                omega
            have hq : R / s = 1 := by omega
            rw [hq] at this
            omega
          · rw [if_neg hz]
            rw [Nat.div_eq_of_lt (by omega)]
        rw [hcount]
        simp [Nat.add_assoc]
      · rw [if_neg htc]
        rw [ih (start + (s - o)) (acc ++ [(text.drop start).take s]) (by omega)]
        simp only [Option.some.injEq, List.length_append, List.length_cons, List.length_nil]
        rcases Nat.lt_or_ge (start + (s - o)) text.length with hcont | hdone
        · -- the tail condition failed with start' < len, so a full window remains
          have hfull : start + (s - o) + s ≤ text.length := by
            rcases Nat.lt_or_ge text.length (start + (s - o) + s) with h' | h'
            · exact absurd ⟨h', hcont⟩ htc
            · exact h'
          have hrec := chunkCount_rec s o (text.length - start) h (by omega)
          have harg : text.length - start - (s - o) = text.length - (start + (s - o)) := by omega
          rw [harg] at hrec
          rw [hrec]
          omega
        · -- start' moved past the end: exactly the current window remains
          have hz : text.length - (start + (s - o)) = 0 := by omega
          rw [hz]
          have hone : chunkCount (text.length - start) s o = 1 := by
            unfold chunkCount
            rw [if_neg (show ¬ text.length - start = 0 by omega),
              if_pos (show text.length - start ≤ s - o by omega)]
          rw [hone]
          simp [chunkCount]
    · rw [chunkLoop, if_neg hlt]
      have hz : text.length - start = 0 := by omega
      rw [hz]
      simp [chunkCount]

/-- C2 (amended): for every nonempty text and every `overlap < size`,
`chunk_text` terminates and returns `chunkCount len size overlap` chunks:
one chunk when `len ≤ size - overlap`, `len / size` chunks when `overlap = 0`
and `size` divides `len`, and `(len - size) / (size - overlap) + 2` chunks
otherwise (one more than the ceiling formula of the original claim whenever
the next window start lands inside the text at distance less than `size`
from its end); `chunk_text "" 500 50 = []` and
`chunk_text "abc" 500 50 = ["abc"]` hold as claimed. -/
theorem chunk_text_count (t : List Char) (size ov : Nat) (hov : ov < size) :
    (chunk_text t size ov).map List.length = some (chunkCount t.length size ov)
    ∧ chunk_text "".data 500 50 = some []
    ∧ chunk_text "abc".data 500 50 = some ["abc".data] := by
  refine ⟨?_, by decide, by decide⟩
  have hmain := chunkLoop_len t size ov hov (t.length + 2) 0 [] (by omega)
  simpa [chunk_text] using hmain

/-- C2 (counterexample): on the text "abc" with `size = 3`, `overlap = 1`
(so `overlap < size` and the text is nonempty), `chunk_text` returns the two
chunks ["abc", "c"], not the `ceil((len - overlap) / (size - overlap)) = 1`
chunk the claim predicts: the final tail is emitted even though the first
window already covered the whole text. -/
theorem chunk_count_formula_counterexample :
    chunk_text "abc".data 3 1 = some ["abc".data, "c".data]
    ∧ ("abc".data.length - 1 + (3 - 1) - 1) / (3 - 1) = 1
    ∧ (chunk_text "abc".data 3 1).map List.length ≠ some 1 := by decide

/-- Witness for C2: the amended count theorem evaluated at the concrete text
"abcdefgh" with `size = 3`, `overlap = 1` (four chunks). -/
theorem chunk_text_count_witness :
    1 < 3 ∧
      ((chunk_text "abcdefgh".data 3 1).map List.length
          = some (chunkCount "abcdefgh".data.length 3 1)
        ∧ chunk_text "".data 500 50 = some []
        ∧ chunk_text "abc".data 500 50 = some ["abc".data]) :=
  ⟨by decide, chunk_text_count "abcdefgh".data 3 1 (by decide)⟩

/-- C4: `chunk_text` does not reject `overlap >= size`.  On the text "abcdef"
with `chunk_size = overlap = 2` the sliding-window loop never terminates
(the start index never advances), for any amount of fuel — the configuration
is silently accepted and the call diverges instead of failing explicitly. -/
theorem chunk_text_overlap_eq_size_diverges :
    (∀ fuel acc, chunkLoop "abcdef".data 2 2 fuel 0 acc = none)
    ∧ chunk_text "abcdef".data 2 2 = none := by
  have hloop : ∀ fuel acc, chunkLoop "abcdef".data 2 2 fuel 0 acc = none := by
    intro fuel
    induction fuel with
    | zero => intro acc; rfl
    | succ n ih =>
      intro acc
      rw [chunkLoop, if_pos (by decide : 0 < ("abcdef".data).length),
        if_neg (by decide :
          ¬(0 + (2 - 2) + 2 > ("abcdef".data).length ∧ 0 + (2 - 2) < ("abcdef".data).length))]
      exact ih _
  exact ⟨hloop, hloop _ _⟩

end Pipeline

namespace Rag

theorem foldl_pairStep {α : Type} (encode : String → Option α) :
    ∀ (ms : List ChunkMeta) (acc : List α × List ChunkMeta),
      ms.foldl (pairStep encode) acc
        = (acc.1 ++ (ms.filterMap (fun m =>
              (encode m.chunk_text).map (fun e => (e, m)))).map Prod.fst,
           acc.2 ++ (ms.filterMap (fun m =>
              (encode m.chunk_text).map (fun e => (e, m)))).map Prod.snd) := by
  intro ms
  induction ms with
  | nil => intro acc; simp
  | cons m ms ih =>
    intro acc
    rw [List.foldl_cons, ih, List.filterMap_cons]
    cases h : encode m.chunk_text with
    | none => simp [pairStep, h]
    | some e => simp [pairStep, h]

theorem build_eq_pairs {α : Type} (encode : String → Option α)
    (documents : List ProcessedDoc) :
    build_faiss_index encode documents
      = ((indexedPairs encode documents).map Prod.fst,
         (indexedPairs encode documents).map Prod.snd) := by
  have hstep : ∀ (docs : List ProcessedDoc) (acc : List α × List ChunkMeta),
      docs.foldl (fun acc doc =>
        doc.processed_files.foldl (fun acc file =>
          file.text_chunks.enum.foldl (fun acc ic =>
            match encode ic.2 with
            | some embedding =>
              (acc.1 ++ [embedding], acc.2 ++ [⟨doc.id, doc.title, ic.2, ic.1⟩])
            | none => acc) acc) acc) acc
        = (chunkMetas docs).foldl (pairStep encode) acc := by
    intro docs
    induction docs with
    | nil => intro acc; simp [chunkMetas]
    | cons doc docs ihd =>
      intro acc
      rw [List.foldl_cons, ihd]
      simp only [chunkMetas, List.flatMap_cons, List.foldl_append]
      congr 1
      induction doc.processed_files generalizing acc with
      | nil => simp
      | cons file files ihf =>
        rw [List.foldl_cons, List.flatMap_cons, List.foldl_append, ihf]
        congr 1
        induction file.text_chunks.enum generalizing acc with
        | nil => simp
        | cons ic ics ihc =>
          rw [List.foldl_cons, List.map_cons, List.foldl_cons, ihc]
          rfl
  rw [build_faiss_index, hstep documents ([], []), indexedPairs, foldl_pairStep]
  simp

theorem countP_split (l : List ChunkMeta) (p : ChunkMeta → Bool) :
    l.length = l.countP p + l.countP (fun a => !(p a)) := by
  induction l with
  | nil => rfl
  | cons a l ih =>
    simp only [List.countP_cons, List.length_cons]
    cases hp : p a <;> simp [hp] <;> omega

theorem mem_indexedPairs {α : Type} (encode : String → Option α)
    (documents : List ProcessedDoc) (p : α × ChunkMeta)
    (hp : p ∈ indexedPairs encode documents) :
    encode p.2.chunk_text = some p.1 := by
  rw [indexedPairs] at hp
  obtain ⟨m, _, hm⟩ := List.mem_filterMap.mp hp
  rw [Option.map_eq_some'] at hm
  obtain ⟨a, ha, hpa⟩ := hm
  subst hpa
  exact ha

/-- C1: after `build_faiss_index` processes a corpus, the metadata sequence and
the vector sequence have equal length, and the record at position `k` describes
the vector at position `k` (the vector is the embedding of exactly the chunk
text stored at that metadata position); when the traversal has `n` chunks and
the embedding fails for exactly one of them, both sequences have exactly
`n - 1` entries, still aligned. -/
theorem build_faiss_index_alignment {α : Type} (encode : String → Option α)
    (documents : List ProcessedDoc) (n : Nat) :
    (build_faiss_index encode documents).2.length
        = (build_faiss_index encode documents).1.length
    ∧ (∀ k (hk : k < (build_faiss_index encode documents).2.length)
          (hk' : k < (build_faiss_index encode documents).1.length),
        encode (((build_faiss_index encode documents).2.get ⟨k, hk⟩).chunk_text)
          = some ((build_faiss_index encode documents).1.get ⟨k, hk'⟩))
    ∧ ((chunkMetas documents).length = n →
        (chunkMetas documents).countP (fun m => (encode m.chunk_text).isNone) = 1 →
        (build_faiss_index encode documents).1.length = n - 1
          ∧ (build_faiss_index encode documents).2.length = n - 1) := by
  rw [build_eq_pairs]
  refine ⟨by simp only [List.length_map], ?_, ?_⟩
  · intro k hk hk'
    simp only [List.length_map] at hk
    simp only [List.get_eq_getElem, List.getElem_map]
    have hmem : (indexedPairs encode documents)[k] ∈ indexedPairs encode documents :=
      List.getElem_mem _
    exact mem_indexedPairs encode documents _ hmem
  · intro hn hfail
    have hlen : (indexedPairs encode documents).length
        = (chunkMetas documents).countP (fun m => (encode m.chunk_text).isSome) := by
      rw [indexedPairs, List.length_filterMap_eq_countP]
      apply List.countP_congr
      intro m _
      cases encode m.chunk_text <;> simp
    have hsplit := countP_split (chunkMetas documents)
      (fun m => (encode m.chunk_text).isSome)
    have hnotIsSome : (chunkMetas documents).countP (fun m => !(encode m.chunk_text).isSome)
        = (chunkMetas documents).countP (fun m => (encode m.chunk_text).isNone) := by
      apply List.countP_congr
      intro m _
      cases encode m.chunk_text <;> simp
    constructor <;> · simp only [List.length_map, hlen]; omega

/-- Witness for C1: on a concrete corpus of three chunks whose second chunk
fails to embed, the build yields exactly two vectors and two metadata
records. -/
theorem build_faiss_index_alignment_witness :
    ((chunkMetas docsW).length = 3
      ∧ (chunkMetas docsW).countP (fun m => (encodeW m.chunk_text).isNone) = 1)
    ∧ ((build_faiss_index encodeW docsW).1.length = 3 - 1
        ∧ (build_faiss_index encodeW docsW).2.length = 3 - 1) :=
  ⟨⟨by decide, by decide⟩,
    (build_faiss_index_alignment encodeW docsW 3).2.2 (by decide) (by decide)⟩

theorem retrieve_foldl (metadata : List ChunkMeta) :
    ∀ (positions : List Int) (acc : List ChunkMeta),
      positions.foldl (fun retrieved_chunks i =>
        if 0 ≤ i ∧ i < (metadata.length : Int) then
          retrieved_chunks ++ (metadata.get? i.toNat).toList
        else retrieved_chunks) acc
        = acc ++ positions.filterMap (lookup1 metadata) := by
  intro positions
  induction positions with
  | nil => intro acc; simp
  | cons i ps ih =>
    intro acc
    rw [List.foldl_cons, List.filterMap_cons]
    by_cases h : 0 ≤ i ∧ i < (metadata.length : Int)
    · rw [if_pos h, ih]
      have hl : lookup1 metadata i = metadata.get? i.toNat := if_pos h
      rw [hl]
      cases hg : metadata.get? i.toNat <;> simp [hg, Option.toList]
    · rw [if_neg h, ih]
      have hl : lookup1 metadata i = none := if_neg h
      rw [hl]

theorem retrieve_eq (metadata : List ChunkMeta) (positions : List Int) :
    retrieve metadata positions = positions.filterMap (lookup1 metadata) := by
  rw [retrieve, retrieve_foldl]
  simp

/-- C8: `retrieve` discards every position outside `[0, metadata.length)` and
never faults: all returned entries are genuine metadata records, the result is
unchanged if the out-of-range positions are removed beforehand, and its length
is exactly the number of in-range positions — for arbitrary positions, so also
when the index and metadata lengths disagree. -/
theorem retrieve_defensive (metadata : List ChunkMeta) (positions : List Int) :
    (∀ m ∈ retrieve metadata positions, m ∈ metadata)
    ∧ retrieve metadata positions
        = retrieve metadata (positions.filter (inRange metadata.length))
    ∧ (retrieve metadata positions).length
        = (positions.filter (inRange metadata.length)).length := by
  refine ⟨?_, ?_, ?_⟩
  · intro m hm
    rw [retrieve_eq] at hm
    obtain ⟨i, _, hi⟩ := List.mem_filterMap.mp hm
    rw [lookup1] at hi
    by_cases h : 0 ≤ i ∧ i < (metadata.length : Int)
    · rw [if_pos h] at hi
      exact List.get?_mem hi
    · rw [if_neg h] at hi
      exact absurd hi (by simp)
  · rw [retrieve_eq, retrieve_eq]
    induction positions with
    | nil => rfl
    | cons i ps ih =>
      rw [List.filterMap_cons, List.filter_cons]
      by_cases h : 0 ≤ i ∧ i < (metadata.length : Int)
      · rw [if_pos (show inRange metadata.length i = true by simp [inRange, h])]
        rw [List.filterMap_cons, ih]
      · rw [if_neg (show ¬ inRange metadata.length i = true by simp [inRange, h])]
        have hl : lookup1 metadata i = none := if_neg h
        rw [hl, ih]
  · rw [retrieve_eq]
    induction positions with
    | nil => rfl
    | cons i ps ih =>
      rw [List.filterMap_cons, List.filter_cons]
      by_cases h : 0 ≤ i ∧ i < (metadata.length : Int)
      · have hlook : lookup1 metadata i = metadata.get? i.toNat := if_pos h
        have hlt : i.toNat < metadata.length := by omega
        rw [if_pos (show inRange metadata.length i = true by simp [inRange, h]), hlook,
          List.get?_eq_get hlt]
        simp only [List.length_cons]
        rw [ih]
      · have hlook : lookup1 metadata i = none := if_neg h
        rw [if_neg (show ¬ inRange metadata.length i = true by simp [inRange, h]), hlook, ih]

/-- Witness for C8: with two metadata records and raw positions
`[1, -1, 5, 0]` (a FAISS missing-neighbour marker and a position past the
end included), every returned entry is a metadata record and the out-of-range
positions contribute nothing. -/
theorem retrieve_defensive_witness :
    metaW1 ∈ [metaW0, metaW1]
    ∧ retrieve [metaW0, metaW1] [1, -1, 5, 0]
        = retrieve [metaW0, metaW1] ([1, -1, 5, 0].filter (inRange 2)) :=
  ⟨(retrieve_defensive [metaW0, metaW1] [1, -1, 5, 0]).1 metaW1 (by decide),
    (retrieve_defensive [metaW0, metaW1] [1, -1, 5, 0]).2.1⟩

end Rag

namespace Scraper

/-- C3 (code bug): the Document id `str(hash(document_url))` is not a
deterministic function of the URL alone — under the model of CPython salted
string hashing, two process runs with different hash salts assign different
ids to the same URL. -/
theorem document_id_salt_dependent :
    documentId 0 "https://www.mospi.gov.in/press-release/doc1"
      ≠ documentId 1 "https://www.mospi.gov.in/press-release/doc1" := by decide

/-- C7: if a file already exists at the destination path computed from the
final path segment of the URL, `download_file` makes no network request and
returns that path; consequently two successive calls for the same URL (first
download succeeding) make exactly one network request in total and the second
call returns the same cached path. -/
theorem download_file_idempotent (net : String → Option Unit) (fs : List String)
    (url output_dir : String) :
    (osPathJoin output_dir (pyLastSeg url) ∈ fs →
      download_file net fs url output_dir
        = ⟨some (osPathJoin output_dir (pyLastSeg url)), fs, 0⟩)
    ∧ (net url = some () → osPathJoin output_dir (pyLastSeg url) ∉ fs →
        (download_file net fs url output_dir).requests = 1
        ∧ (download_file net (download_file net fs url output_dir).fs url output_dir).requests = 0
        ∧ (download_file net (download_file net fs url output_dir).fs url output_dir).result
            = some (osPathJoin output_dir (pyLastSeg url))
        ∧ (download_file net (download_file net fs url output_dir).fs url output_dir).result
            = (download_file net fs url output_dir).result) := by
  constructor
  · intro hmem
    rw [download_file]
    simp only [if_pos hmem]
  · intro hnet hnot
    have h1 : download_file net fs url output_dir
        = ⟨some (osPathJoin output_dir (pyLastSeg url)),
           fs ++ [osPathJoin output_dir (pyLastSeg url)], 1⟩ := by
      rw [download_file]
      simp only [if_neg hnot, hnet]
    have h2 : download_file net (fs ++ [osPathJoin output_dir (pyLastSeg url)]) url output_dir
        = ⟨some (osPathJoin output_dir (pyLastSeg url)),
           fs ++ [osPathJoin output_dir (pyLastSeg url)], 0⟩ := by
      rw [download_file]
      simp only [if_pos (by simp : osPathJoin output_dir (pyLastSeg url)
        ∈ fs ++ [osPathJoin output_dir (pyLastSeg url)])]
    simp [h1, h2]

/-- Witness for C7: a concrete URL downloaded into an empty filesystem — the
first call makes the one request, the second returns the cached path with no
request. -/
theorem download_file_idempotent_witness :
    ((fun _ => some ()) "https://x.gov/files/a.pdf" = some ()
      ∧ osPathJoin "data/raw/pdf" (pyLastSeg "https://x.gov/files/a.pdf") ∉ ([] : List String))
    ∧ ((download_file (fun _ => some ()) [] "https://x.gov/files/a.pdf" "data/raw/pdf").requests = 1
      ∧ (download_file (fun _ => some ())
          (download_file (fun _ => some ()) [] "https://x.gov/files/a.pdf" "data/raw/pdf").fs
          "https://x.gov/files/a.pdf" "data/raw/pdf").requests = 0
      ∧ (download_file (fun _ => some ())
          (download_file (fun _ => some ()) [] "https://x.gov/files/a.pdf" "data/raw/pdf").fs
          "https://x.gov/files/a.pdf" "data/raw/pdf").result
          = some (osPathJoin "data/raw/pdf" (pyLastSeg "https://x.gov/files/a.pdf"))
      ∧ (download_file (fun _ => some ())
          (download_file (fun _ => some ()) [] "https://x.gov/files/a.pdf" "data/raw/pdf").fs
          "https://x.gov/files/a.pdf" "data/raw/pdf").result
          = (download_file (fun _ => some ()) [] "https://x.gov/files/a.pdf" "data/raw/pdf").result) :=
  ⟨⟨rfl, by decide⟩,
    (download_file_idempotent (fun _ => some ()) [] "https://x.gov/files/a.pdf" "data/raw/pdf").2
      rfl (by decide)⟩

/-- C10: a successfully fetched page whose URL does not contain
"press-release" consumes one unit of the `max_pages` budget (and one
successful fetch) but contributes no Document records and enqueues no new
URLs: the step only pops the URL, marks it visited and counts it. -/
theorem non_press_release_consumes_budget (fetch : String → Option Html)
    (salt max_pages : Nat) (st : CrawlState) (u : String) (rest : List String)
    (page : Html) (hq : st.queue = u :: rest) (hv : u ∉ st.visited)
    (hf : fetch u = some page) (hnp : pyContains u "press-release" = false) :
    crawlStep fetch salt max_pages st =
      { st with
        queue := rest
        visited := st.visited ++ [u]
        pagesCrawled := st.pagesCrawled + 1
        fetches := st.fetches + 1 } := by
  rw [crawlStep, hq]
  simp only [get_page_content, if_neg hv, hf, hnp]
  rfl

/-- Witness for C10: fetching a concrete non-listing URL consumes the budget
and changes nothing else. -/
theorem non_press_release_consumes_budget_witness :
    (stAboutW.queue = aboutW :: []
      ∧ aboutW ∉ stAboutW.visited
      ∧ fetchAboutW aboutW = some htmlW
      ∧ pyContains aboutW "press-release" = false)
    ∧ crawlStep fetchAboutW 0 5 stAboutW =
        { stAboutW with
          queue := []
          visited := stAboutW.visited ++ [aboutW]
          pagesCrawled := stAboutW.pagesCrawled + 1
          fetches := stAboutW.fetches + 1 } :=
  ⟨⟨rfl, by decide, rfl, by decide⟩,
    non_press_release_consumes_budget fetchAboutW 0 5 stAboutW
      aboutW [] htmlW rfl (by decide) rfl (by decide)⟩

end Scraper

namespace Scraper

theorem enqueueUrl_counters (m : Nat) (st : CrawlState) (u : String) :
    (enqueueUrl m st u).pagesCrawled = st.pagesCrawled
    ∧ (enqueueUrl m st u).fetches = st.fetches := by
  rw [enqueueUrl]
  split <;> exact ⟨rfl, rfl⟩

theorem enqueuePagination_counters (m : Nat) (cu : String) (st : CrawlState)
    (li : Option Anchor) :
    (enqueuePagination m cu st li).pagesCrawled = st.pagesCrawled
    ∧ (enqueuePagination m cu st li).fetches = st.fetches := by
  cases li with
  | none => exact ⟨rfl, rfl⟩
  | some a =>
    cases ha : a.href with
    | none => simp [enqueuePagination, ha]
    | some h =>
      by_cases hne : h ≠ ""
      · simp only [enqueuePagination, ha, if_pos hne]
        exact enqueueUrl_counters m st (pyUrljoin cu h)
      · simp [enqueuePagination, ha, hne]

theorem foldl_enqueuePagination_counters (m : Nat) (cu : String) :
    ∀ (lis : List (Option Anchor)) (st : CrawlState),
      (lis.foldl (enqueuePagination m cu) st).pagesCrawled = st.pagesCrawled
      ∧ (lis.foldl (enqueuePagination m cu) st).fetches = st.fetches := by
  intro lis
  induction lis with
  | nil => intro st; exact ⟨rfl, rfl⟩
  | cons li lis ih =>
    intro st
    rw [List.foldl_cons]
    have h1 := enqueuePagination_counters m cu st li
    have h2 := ih (enqueuePagination m cu st li)
    exact ⟨h2.1.trans h1.1, h2.2.trans h1.2⟩

theorem crawlStep_counters (fetch : String → Option Html) (salt m : Nat)
    (st : CrawlState) :
    ((crawlStep fetch salt m st).pagesCrawled = st.pagesCrawled
        ∧ (crawlStep fetch salt m st).fetches = st.fetches)
    ∨ ((crawlStep fetch salt m st).pagesCrawled = st.pagesCrawled + 1
        ∧ (crawlStep fetch salt m st).fetches = st.fetches + 1) := by
  rw [crawlStep]
  match hq : st.queue with
  | [] => exact Or.inl ⟨rfl, rfl⟩
  | cu :: rest =>
    simp only [get_page_content]
    by_cases hv : cu ∈ ({ st with queue := rest } : CrawlState).visited
    · rw [if_pos hv]
      exact Or.inl ⟨rfl, rfl⟩
    · rw [if_neg hv]
      match hf : fetch cu with
      | none => exact Or.inl ⟨rfl, rfl⟩
      | some page =>
        simp only []
        by_cases hpr : pyContains cu "press-release"
        · rw [if_pos hpr]
          match hpg : page.pager with
          | none => exact Or.inr ⟨rfl, rfl⟩
          | some lis =>
            simp only []
            have h := foldl_enqueuePagination_counters m cu lis
              { st with
                queue := rest
                visited := st.visited ++ [cu]
                fetches := st.fetches + 1
                pagesCrawled := st.pagesCrawled + 1
                foundDocuments := st.foundDocuments ++ parse_listing_page salt page cu }
            exact Or.inr ⟨h.1, h.2⟩
        · rw [if_neg hpr]
          exact Or.inr ⟨rfl, rfl⟩

theorem crawlLoop_budget (fetch : String → Option Html) (salt m : Nat) :
    ∀ (fuel : Nat) (st : CrawlState),
      st.pagesCrawled ≤ m → st.fetches = st.pagesCrawled →
      (crawlLoop fetch salt m fuel st).pagesCrawled ≤ m
      ∧ (crawlLoop fetch salt m fuel st).fetches
          = (crawlLoop fetch salt m fuel st).pagesCrawled := by
  intro fuel
  induction fuel with
  | zero => intro st h1 h2; exact ⟨h1, h2⟩
  | succ fuel ih =>
    intro st h1 h2
    rw [crawlLoop]
    split
    · rename_i hcond
      apply ih
      · rcases crawlStep_counters fetch salt m st with ⟨hp, _⟩ | ⟨hp, _⟩
        · omega
        · omega
      · rcases crawlStep_counters fetch salt m st with ⟨hp, hf⟩ | ⟨hp, hf⟩
        · omega
        · omega
    · exact ⟨h1, h2⟩


/-- C5: `crawl_website` performs at most `max_pages` successful page fetches
for every fetch oracle, seed and fuel (the budget test is part of the loop
condition, checked before a URL is popped); in the concrete scenario with
`max_pages = 1` and a listing page carrying three pagination links, exactly
one successful fetch happens and no pagination link remains enqueued. -/
theorem crawl_fetch_budget :
    (∀ (fetch : String → Option Html) (salt : Nat) (seed : String) (m fuel : Nat),
        (crawl_website fetch salt seed m fuel).fetches ≤ m)
    ∧ (crawl_website fetchW 0 seedW 1 10).fetches = 1
    ∧ (crawl_website fetchW 0 seedW 1 10).queue = [] := by
  refine ⟨?_, by decide, by decide⟩
  intro fetch salt seed m fuel
  have h := crawlLoop_budget fetch salt m fuel
    ⟨[seed], [], 0, [], 0⟩ (by simp) rfl
  rw [crawl_website]
  omega


theorem enqueueUrl_nodup (m : Nat) (st : CrawlState) (u : String)
    (h : st.queue.Nodup) : (enqueueUrl m st u).queue.Nodup := by
  rw [enqueueUrl]
  split
  · rename_i hc
    simp only [List.nodup_append, List.nodup_cons, List.not_mem_nil, not_false_iff,
      List.nodup_nil, and_true, true_and]
    constructor
    · exact h
    · intro x hx hmem
      have hxu := List.mem_singleton.mp hmem
      subst hxu
      exact hc.2.1 hx
  · exact h

theorem enqueuePagination_nodup (m : Nat) (cu : String) (st : CrawlState)
    (li : Option Anchor) (h : st.queue.Nodup) :
    (enqueuePagination m cu st li).queue.Nodup := by
  cases li with
  | none => exact h
  | some a =>
    cases ha : a.href with
    | none => simpa [enqueuePagination, ha] using h
    | some s =>
      by_cases hne : s ≠ ""
      · simp only [enqueuePagination, ha, if_pos hne]
        exact enqueueUrl_nodup m st (pyUrljoin cu s) h
      · simpa [enqueuePagination, ha, hne] using h

theorem foldl_enqueuePagination_nodup (m : Nat) (cu : String) :
    ∀ (lis : List (Option Anchor)) (st : CrawlState),
      st.queue.Nodup → (lis.foldl (enqueuePagination m cu) st).queue.Nodup := by
  intro lis
  induction lis with
  | nil => intro st h; exact h
  | cons li lis ih =>
    intro st h
    rw [List.foldl_cons]
    exact ih _ (enqueuePagination_nodup m cu st li h)

theorem crawlStep_nodup (fetch : String → Option Html) (salt m : Nat)
    (st : CrawlState) (h : st.queue.Nodup) :
    (crawlStep fetch salt m st).queue.Nodup := by
  rw [crawlStep]
  match hq : st.queue with
  | [] => exact h
  | cu :: rest =>
    rw [hq] at h
    have hrest : rest.Nodup := h.of_cons
    simp only [get_page_content]
    by_cases hv : cu ∈ ({ st with queue := rest } : CrawlState).visited
    · rw [if_pos hv]
      exact hrest
    · rw [if_neg hv]
      match hf : fetch cu with
      | none => exact hrest
      | some page =>
        simp only []
        by_cases hpr : pyContains cu "press-release"
        · rw [if_pos hpr]
          match hpg : page.pager with
          | none => exact hrest
          | some lis =>
            simp only []
            exact foldl_enqueuePagination_nodup m cu lis _ hrest
        · rw [if_neg hpr]
          exact hrest

theorem crawlLoop_nodup (fetch : String → Option Html) (salt m : Nat) :
    ∀ (fuel : Nat) (st : CrawlState),
      st.queue.Nodup → (crawlLoop fetch salt m fuel st).queue.Nodup := by
  intro fuel
  induction fuel with
  | zero => intro st h; exact h
  | succ fuel ih =>
    intro st h
    rw [crawlLoop]
    split
    · exact ih _ (crawlStep_nodup fetch salt m st h)
    · exact h

/-- C6: enqueueing a URL that is already queued or already visited leaves the
state unchanged; a URL is appended only when it is unvisited, not queued and
the budget is not exhausted (and then exactly once at the tail); hence the
crawl queue never holds a URL twice, from any seed, oracle and fuel. -/
theorem frontier_dedup :
    (∀ (max_pages : Nat) (st : CrawlState) (u : String),
        u ∈ st.queue ∨ u ∈ st.visited → enqueueUrl max_pages st u = st)
    ∧ (∀ (max_pages : Nat) (st : CrawlState) (u : String),
        enqueueUrl max_pages st u = st
          ∨ (u ∉ st.visited ∧ u ∉ st.queue ∧ st.pagesCrawled < max_pages
              ∧ (enqueueUrl max_pages st u).queue = st.queue ++ [u]))
    ∧ (∀ (fetch : String → Option Html) (salt : Nat) (seed : String) (max_pages fuel : Nat),
        ((crawl_website fetch salt seed max_pages fuel).queue).Nodup) := by
  refine ⟨?_, ?_, ?_⟩
  · intro m st u hmem
    rw [enqueueUrl]
    rw [if_neg]
    intro hc
    rcases hmem with hq | hv
    · exact hc.2.1 hq
    · exact hc.1 hv
  · intro m st u
    by_cases hc : u ∉ st.visited ∧ u ∉ st.queue ∧ st.pagesCrawled < m
    · right
      refine ⟨hc.1, hc.2.1, hc.2.2, ?_⟩
      rw [enqueueUrl, if_pos hc]
    · left
      rw [enqueueUrl, if_neg hc]
  · intro fetch salt seed m fuel
    exact crawlLoop_nodup fetch salt m fuel _ (by simp)

/-- Witness for C6: enqueueing a concrete URL that is already in the queue is
a no-op. -/
theorem frontier_dedup_witness :
    ("https://a.gov/p?page=1" ∈ stDupW.queue ∨ "https://a.gov/p?page=1" ∈ stDupW.visited)
    ∧ enqueueUrl 5 stDupW "https://a.gov/p?page=1" = stDupW :=
  ⟨Or.inl (by decide),
    frontier_dedup.1 5 stDupW "https://a.gov/p?page=1" (Or.inl (by decide))⟩


theorem pyEndsWith_mk_append (p h : List Char) (suf : String)
    (hlen : suf.data.length ≤ h.length) :
    pyEndsWith (String.mk (p ++ h)) suf = pyEndsWith (String.mk h) suf := by
  rw [pyEndsWith, pyEndsWith]
  have harg : (p ++ h).length - suf.data.length
      = p.length + (h.length - suf.data.length) := by
    rw [List.length_append]
    omega
  have hdrop : (p ++ h).drop ((p ++ h).length - suf.data.length)
      = h.drop (h.length - suf.data.length) := by
    rw [harg, ← List.drop_drop, List.drop_left]
  rw [hdrop]

theorem pyEndsWith_length (s suf : String) (h : pyEndsWith s suf = true) :
    suf.data.length ≤ s.data.length := by
  rw [pyEndsWith] at h
  have heq := of_decide_eq_true h
  have hlen := congrArg List.length heq
  rw [List.length_drop] at hlen
  omega

theorem pyLower_length (s : String) : (pyLower s).data.length = s.data.length := by
  rw [pyLower]
  exact List.length_map _ _

theorem pyEndsWith_urljoin (base url suf : String) (hne : url.data ≠ [])
    (hlen : suf.data.length ≤ url.data.length) :
    pyEndsWith (pyUrljoin base url) suf = pyEndsWith url suf := by
  rw [pyUrljoin]
  split_ifs with h1 h2 h3 h4
  · exact absurd h1 hne
  · rfl
  · exact pyEndsWith_mk_append _ _ _ hlen
  · exact pyEndsWith_mk_append _ _ _ hlen
  · exact pyEndsWith_mk_append _ _ _ hlen

/-- C9: link extraction and download filtering disagree on case — a row
anchor whose href ends case-insensitively in ".pdf" but not case-sensitively
(an uppercase variant) is recorded as a FileLink on the parsed document, yet
the download loop, which tests `url.endswith(".pdf")` case-sensitively,
never downloads its URL, whatever the crawl found. -/
theorem pdf_case_mismatch (salt : Nat) (base h : String) (html : Html)
    (rows : List Row) (row : Row) (a : Anchor) (doc : Document)
    (hvc : html.viewContent = some ⟨some rows⟩)
    (hrow : row ∈ rows)
    (hdoc : rowToDocument salt base row = some doc)
    (ha : a ∈ row.allAnchors)
    (hhref : a.href = some h)
    (hlow : pyEndsWith (pyLower h) ".pdf" = true)
    (hcase : pyEndsWith h ".pdf" = false) :
    (FileLink.mk (pyUrljoin base h) (some "pdf") none ∈ doc.file_links
      ∧ doc ∈ parse_listing_page salt html base)
    ∧ ∀ docs : List Document, pyUrljoin base h ∉ downloadedUrls docs := by
  have hlen4 : ".pdf".data.length ≤ h.data.length := by
    have := pyEndsWith_length (pyLower h) ".pdf" hlow
    rw [pyLower_length] at this
    exact this
  have hne : h.data ≠ [] := by
    intro hc
    rw [hc] at hlen4
    simp at hlen4
  refine ⟨⟨?_, ?_⟩, ?_⟩
  · -- the FileLink is recorded on the parsed document
    rw [rowToDocument] at hdoc
    split at hdoc
    · cases hdoc
    · split at hdoc
      · split at hdoc
        · cases hdoc
        · rw [Option.some.injEq] at hdoc
          subst hdoc
          simp only []
          apply List.mem_map.mpr
          refine ⟨a, List.mem_filter.mpr ⟨ha, ?_⟩, ?_⟩
          · rw [hhref]
            exact hlow
          · rw [hhref]
            rfl
      · cases hdoc
  · -- the document itself is in the parse output
    rw [parse_listing_page, hvc]
    exact List.mem_filterMap.mpr ⟨row, hrow, hdoc⟩
  · -- the joined URL never passes the case-sensitive download filter
    intro docs hmem
    have hfilter := (List.mem_filter.mp hmem).2
    rw [pyEndsWith_urljoin base h ".pdf" hne hlen4, hcase] at hfilter
    cases hfilter

/-- Witness for C9: the concrete listing row linking
"https://www.mospi.gov.in/files/REPORT.PDF" — recorded, never downloaded. -/
theorem pdf_case_mismatch_witness :
    (htmlW.viewContent = some ⟨some [rowW]⟩
      ∧ rowW ∈ [rowW]
      ∧ rowToDocument 0 seedW rowW = some docW
      ∧ pdfAnchorW ∈ rowW.allAnchors
      ∧ pdfAnchorW.href = some "https://www.mospi.gov.in/files/REPORT.PDF"
      ∧ pyEndsWith (pyLower "https://www.mospi.gov.in/files/REPORT.PDF") ".pdf" = true
      ∧ pyEndsWith "https://www.mospi.gov.in/files/REPORT.PDF" ".pdf" = false)
    ∧ ((FileLink.mk (pyUrljoin seedW "https://www.mospi.gov.in/files/REPORT.PDF")
          (some "pdf") none ∈ docW.file_links
        ∧ docW ∈ parse_listing_page 0 htmlW seedW)
      ∧ ∀ docs : List Document,
          pyUrljoin seedW "https://www.mospi.gov.in/files/REPORT.PDF" ∉ downloadedUrls docs) :=
  ⟨⟨rfl, by decide, by decide, by decide, rfl, by decide, by decide⟩,
    pdf_case_mismatch 0 seedW "https://www.mospi.gov.in/files/REPORT.PDF" htmlW
      [rowW] rowW pdfAnchorW docW rfl (by decide) (by decide) (by decide) rfl
      (by decide) (by decide)⟩

end Scraper
